import Mathlib

/-!
Verification of the hs-m3u8 HLS downloader (`src/hs_m3u8/main.py`) against its
natural-language specification.  The Python source is shallowly embedded below:
byte strings become `List Nat`, fallible constructors become `Except`,
the AES block cipher (provided by the external `hssp` library) is abstracted
as a function parameter, and the orchestrator's recursion is made structural
on the remaining retry budget.
-/

deriving instance DecidableEq for Except

namespace HsM3u8

/-! ## Data model: the m3u8-library objects as consumed by `main.py` -/

/-- Variant stream info: the declared `BANDWIDTH` attribute (`int(...)` in the code). -/
structure StreamInfo where
  bandwidth : Int
deriving DecidableEq, Repr

/-- A nested variant playlist entry (`m3u8_obj.playlists[i]`). -/
structure Playlist where
  stream_info : StreamInfo
  absolute_uri : String
deriving DecidableEq, Repr

/-- A media segment entry (`m3u8_obj.segments[i]`): its raw `uri` attribute and the
library-resolved `absolute_uri`. -/
structure Segment where
  uri : String
  absolute_uri : String
deriving DecidableEq, Repr

/-- An `#EXT-X-MAP` (initialization segment) entry (`m3u8_obj.segment_map[i]`). -/
structure SegmentMapEntry where
  uri : String
deriving DecidableEq, Repr

/-- A manifest-declared key entry (`m3u8_obj.keys[i]`): the optional `IV` attribute
(a hex string as produced by the parser) and the key's absolute URI. -/
structure SegmentKey where
  iv : Option String
  absolute_uri : String
deriving DecidableEq, Repr

/-- The parsed manifest object, with the four attributes `get_ts_list` reads. -/
structure M3u8Obj where
  playlists : List Playlist
  segment_map : List SegmentMapEntry
  segments : List Segment
  keys : List (Option SegmentKey)
deriving DecidableEq, Repr

/-! ## `M3u8Key` (main.py lines 23-46) -/

/-- Value of a single hex digit, as accepted by Python's `bytes.fromhex`. -/
def hexDigitVal (c : Char) : Option Nat :=
  if '0' ≤ c ∧ c ≤ '9' then some (c.toNat - '0'.toNat)
  else if 'a' ≤ c ∧ c ≤ 'f' then some (c.toNat - 'a'.toNat + 10)
  else if 'A' ≤ c ∧ c ≤ 'F' then some (c.toNat - 'A'.toNat + 10)
  else none

/-- Python `bytes.fromhex`: pairs of hex digits; `none` models the `ValueError`
raised on a malformed hex string (odd length or non-hex character). -/
def bytesFromHex : List Char → Option (List Nat)
  | [] => some []
  | [_] => none
  | c1 :: c2 :: rest =>
    match hexDigitVal c1, hexDigitVal c2, bytesFromHex rest with
    | some h, some l, some bs => some ((16 * h + l) :: bs)
    | _, _, _ => none

/-- The IV argument of `M3u8Key.__init__`: a str, bytes, or Python `None`. -/
inductive IvArg where
  | str (s : String)
  | bytes (b : List Nat)
  | pyNone
deriving DecidableEq, Repr

/-- Normalized key material: `self.key` and `self.iv` after `__init__` ran
(the iv is bytes or Python `None`). -/
structure M3u8Key where
  key : List Nat
  iv : Option (List Nat)
deriving DecidableEq, Repr

/-- Decoding of a textual IV as done in `__init__`: strip an optional `0x`
prefixation, then `bytes.fromhex`. -/
def decodeIvStr (s : String) : Option (List Nat) :=
  if s.toList.take 2 = ['0', 'x'] then bytesFromHex (s.toList.drop 2)
  else bytesFromHex s.toList

/-- Python truthiness of the decoded iv value (`if iv ...`): `None` and empty
bytes are falsy. -/
def ivTruthy : Option (List Nat) → Bool
  | none => false
  | some b => !b.isEmpty

/-- `len(iv)` of the decoded iv value (only consulted when truthy). -/
def ivLength : Option (List Nat) → Nat
  | none => 0
  | some b => b.length

/-- `M3u8Key.__init__` (lines 28-46): hex-decode a textual iv (ValueError on bad
hex), then `if iv and len(iv) != 16: raise ValueError`. -/
def M3u8Key.init (key : List Nat) (iv : IvArg) : Except String M3u8Key :=
  let dec : Except String (Option (List Nat)) :=
    match iv with
    | .str s =>
      match decodeIvStr s with
      | some b => .ok (some b)
      | none => .error "iv hex value is malformed"
    | .bytes b => .ok (some b)
    | .pyNone => .ok none
  match dec with
  | .error e => .error e
  | .ok v =>
    if ivTruthy v && (ivLength v != 16) then .error "iv length is not 16"
    else .ok ⟨key, v⟩

/-! ## Decryption primitive and the two decryption sites -/

/-- Modelled from the spec: `hssp.utils.crypto.decrypt_aes_256_cbc` belongs to the
external `hssp` library and is not under `src/`; the spec states that when no IV
is available the key bytes themselves are used as the IV.  The block cipher core
itself is abstracted as the parameter `cipher` (ciphertext → key → iv → plaintext). -/
def decrypt_aes_256_cbc (cipher : List Nat → List Nat → List Nat → List Nat)
    (data key : List Nat) (iv : Option (List Nat)) : List Nat :=
  cipher data key (iv.getD key)

/-- The fetch-stage transformation of one segment's bytes (`_download_ts` lines
299-302): decrypt exactly when a key is held and `is_decrypt` is set. -/
def fetchStageBytes (cipher : List Nat → List Nat → List Nat → List Nat)
    (tsKey : Option M3u8Key) (is_decrypt : Bool) (content : List Nat) : List Nat :=
  match tsKey, is_decrypt with
  | some k, true => decrypt_aes_256_cbc cipher content k.key k.iv
  | _, _ => content

/-- The merge-stage transformation of one segment file's bytes (`merge` lines
341-342): decrypt whenever a key is held, with no look at `is_decrypt`. -/
def mergeStageBytes (cipher : List Nat → List Nat → List Nat → List Nat)
    (tsKey : Option M3u8Key) (data : List Nat) : List Nat :=
  match tsKey with
  | some k => decrypt_aes_256_cbc cipher data k.key k.iv
  | none => data

/-! ## Segment fetch (`_download_ts`, lines 277-304) -/

/-- Observable outcome of `_download_ts` for one segment: the value left in
`ts_path_list[index]` and the bytes written to the segment file (if any). -/
structure TsFetchOutcome where
  slot : Option String
  written : Option (List Nat)
deriving DecidableEq, Repr

/-- `_download_ts`: if the segment file exists, record its path; else fetch; a
`None` body records nothing; otherwise optionally decrypt, write, record the path. -/
def download_ts (cipher : List Nat → List Nat → List Nat → List Nat)
    (tsKey : Option M3u8Key) (is_decrypt : Bool) (index : Nat)
    (fileExists : Bool) (respContent : Option (List Nat)) : TsFetchOutcome :=
  let ts_path := toString index ++ ".ts"
  if fileExists then ⟨some ts_path, none⟩
  else
    match respContent with
    | none => ⟨none, none⟩
    | some content => ⟨some ts_path, some (fetchStageBytes cipher tsKey is_decrypt content)⟩

/-! ## Manifest resolution (`get_ts_list`, lines 210-275) -/

/-- Declared bandwidth of a variant, as the integer the code compares. -/
def bwOf (p : Playlist) : Int := p.stream_info.bandwidth

/-- The variant-selection loop (lines 229-235): fold over the playlists keeping
`(bandwidth, play_url)`, updating only on a strictly larger bandwidth. -/
def selectPlaylist : List Playlist → Int × String → Int × String
  | [], acc => acc
  | p :: ps, acc =>
    selectPlaylist ps (if acc.1 < bwOf p then (bwOf p, p.absolute_uri) else acc)

/-- The selected `(bandwidth, play_url)` pair, starting from the code's
initial accumulator `bandwidth = 0`, `play_url = ""`. -/
def selectedPlaylist (ps : List Playlist) : Int × String := selectPlaylist ps (0, "")

/-- Spec-side quantity: the maximum declared bandwidth, floored at the code's
initial accumulator value 0. -/
def maxBandwidth (ps : List Playlist) : Int := ps.foldl (fun a p => max a (bwOf p)) 0

/-- Substring occurrence over character lists: `needle` occurs contiguously
somewhere in `hay` (an empty needle always occurs). -/
def occursIn (needle : List Char) : List Char → Bool
  | [] => needle.isEmpty
  | c :: rest => needle.isPrefixOf (c :: rest) || occursIn needle rest

/-- The `"http" in uri` membership test of line 249 (Python substring containment). -/
def httpIn (s : String) : Bool := occursIn "http".toList s.toList

/-- Line 249: use the raw uri verbatim when it contains `"http"`, else the
library-resolved absolute uri. -/
def resolveSegUri (s : Segment) : String :=
  if httpIn s.uri then s.uri else s.absolute_uri

/-- One entry of `ts_url_list`: the dict `{"uri": ts_uri, "index": index}`. -/
structure TsItem where
  uri : String
  index : Nat
deriving DecidableEq, Repr

/-- The segment loop (lines 248-251): enumerate segments, resolving each uri. -/
def buildTsList (segs : List Segment) : List TsItem :=
  segs.enum.map fun p => ⟨resolveSegUri p.2, p.1⟩

/-- Python `custom_key.iv or iv` (line 261): the custom iv wins when truthy
(non-`None`, non-empty), else fall back to the manifest's iv argument. -/
def pyOr (a : Option (List Nat)) (b : IvArg) : IvArg :=
  match a with
  | some bs => if bs.isEmpty then b else .bytes bs
  | none => b

/-- Key resolution (lines 254-264): when the manifest declares a truthy first
key, build the `M3u8Key` from either the fetched key bytes (no custom key) or
the custom key's bytes with `custom.iv or manifest.iv`.  `fetchKey` abstracts
`key_net.get(...).content`. -/
def resolveTsKey (fetchKey : String → List Nat) (mKeys : List (Option SegmentKey))
    (custom : Option M3u8Key) : Option (Except String M3u8Key) :=
  match mKeys with
  | some mk :: _ =>
    let mIv : IvArg := match mk.iv with | some s => .str s | none => .pyNone
    some (match custom with
      | none => M3u8Key.init (fetchKey mk.absolute_uri) mIv
      | some ck => M3u8Key.init ck.key (pyOr ck.iv mIv))
  | _ => none

/-- The network/parsing environment `get_ts_list` runs against: the parsed
manifest at each URL, the key bytes at each key URL, and the
`scheme://netloc` prefixation of each URL (`urlparse` derived). -/
structure ResolveEnv where
  manifest : String → M3u8Obj
  keyBytes : String → List Nat
  hostOf : String → String

/-- The outputs of `get_ts_list` the rest of the pipeline observes:
`ts_url_list`, `self.mp4_head_url`, and `self.ts_key`. -/
structure ResolveOut where
  tsUrlList : List TsItem
  mp4HeadUrl : Option String
  tsKey : Option M3u8Key
deriving DecidableEq, Repr

/-- `get_ts_list` (lines 210-275).  The Python recursion carries no bound: the
`fuel` argument only serves to make the definition total, and every theorem
below lives on runs that reach a variant-free manifest within fuel.  With
nested variants present the function recurses into the selected play url;
otherwise more than one `segment_map` entry raises `ValueError`, and else the
segment list, optional head url and optional key are produced.  (The export of
the rewritten `.m3u8` text, a pure side effect, is not modelled.) -/
def getTsList (env : ResolveEnv) (custom : Option M3u8Key) :
    Nat → String → Except String ResolveOut
  | 0, _ => .error "resolution fuel exhausted"
  | fuel + 1, url =>
    let m := env.manifest url
    if 0 < m.playlists.length then
      getTsList env custom fuel (selectedPlaylist m.playlists).2
    else if 1 < m.segment_map.length then
      .error "more than one segment_map entry is not supported"
    else
      let headUrl := m.segment_map.head?.map fun sm => env.hostOf url ++ sm.uri
      match resolveTsKey env.keyBytes m.keys custom with
      | some (.error e) => .error e
      | some (.ok k) => .ok ⟨buildTsList m.segments, headUrl, some k⟩
      | none => .ok ⟨buildTsList m.segments, headUrl, none⟩

/-! ## Orchestrator (`start`, lines 141-198) -/

/-- The distinguishable results of `start`: Python `True`, `None` (zero counts),
`False`, or an uncaught exception carrying its message. -/
inductive StartResult where
  | success
  | nothingRes
  | failure
  | raised (e : String)
deriving DecidableEq, Repr

/-- The on-disk state `start` consults at entry. -/
structure FS where
  mp4Exists : Bool
  hlsDirExists : Bool
deriving DecidableEq, Repr

/-- Result of a `start` invocation together with its observable effects:
whether the hls working directory got removed and how many full
download passes (manifest resolution included) were run. -/
structure StartOutcome where
  result : StartResult
  hlsRemoved : Bool
  passesRun : Nat
deriving DecidableEq, Repr

/-- The retry counters set up in `__init__` (lines 121-122). -/
structure RetryCounters where
  retry_count : Nat
  retry_max_count : Nat
deriving DecidableEq, Repr

/-- `__init__`: `retry_count = 0`, `retry_max_count = 50`. -/
def initCounters : RetryCounters := ⟨0, 50⟩

/-- The verify-and-retry tail of `start` (lines 165-198).  One full pass
(`_download`: manifest resolution plus all fetches) is abstracted as
`passes r`, giving for the pass at retry count `r` either an uncaught
exception or the pair `(count_1, count_2)` = (expected segments, non-empty
result slots).  The code guards the retry with `retry_count < retry_max_count`
and then increments `retry_count`; here the remaining budget
`b = retry_max_count - retry_count` is the structural recursion argument, so
the guard is `b ≠ 0`.  The second component counts the passes run. -/
def startAux (passes : Nat → Except String (Nat × Nat)) (merge mergeOk : Bool) :
    Nat → Nat → StartResult × Nat
  | b, r =>
    match passes r with
    | .error e => (.raised e, 1)
    | .ok (c1, c2) =>
      if c1 = 0 ∨ c2 = 0 then (.nothingRes, 1)
      else if c2 ≠ c1 then
        match b with
        | 0 => (.failure, 1)
        | b' + 1 =>
          let x := startAux passes merge mergeOk b' (r + 1)
          (x.1, x.2 + 1)
      else if merge then (if mergeOk then (.success, 1) else (.failure, 1))
      else (.success, 1)

/-- `start` (lines 141-198): if the final `.mp4` already exists, return `True`
at once, removing the hls directory when `del_hls` was requested and the
directory exists; otherwise run the pass/verify/retry loop.  On the non-
short-circuit path the hls directory is removed only after a successful,
requested merge (line 184 returns before line 195 when `merge` is false). -/
def startModel (fs : FS) (del_hls merge : Bool)
    (passes : Nat → Except String (Nat × Nat)) (mergeOk : Bool)
    (retry_max : Nat) : StartOutcome :=
  if fs.mp4Exists then ⟨.success, del_hls && fs.hlsDirExists, 0⟩
  else
    let x := startAux passes merge mergeOk retry_max 0
    ⟨x.1, (match x.1 with | .success => del_hls && merge | _ => false), x.2⟩

/-! ## Verification filter and merge concatenation (lines 167, 306-355) -/

/-- Line 167: `[ts_path for ts_path in self.ts_path_list if ts_path]` — drop
`None` slots (and, by Python truthiness, empty path strings). -/
def pyFilter (l : List (Option String)) : List String :=
  l.filterMap fun o =>
    match o with
    | some s => if s.isEmpty then none else some s
    | none => none

/-- A complete fetch pass over `n` segments, each fetch writing its own path at
its own index of `ts_path_list` (initialized to `[None] * n` in `_download`),
in the completion order `order`. -/
def runFetches (n : Nat) (pathOf : Nat → String) (order : List Nat) : List (Option String) :=
  order.foldl (fun st i => st.set i (some (pathOf i))) (List.replicate n none)

/-- The concatenation loop of `merge` (lines 336-343): starting from the head
bytes already written, append each segment file's (possibly decrypted) bytes in
list order. -/
def mergeConcat (cipher : List Nat → List Nat → List Nat → List Nat)
    (tsKey : Option M3u8Key) (headData : List Nat)
    (fileBytes : String → List Nat) (paths : List String) : List Nat :=
  paths.foldl (fun acc p => acc ++ mergeStageBytes cipher tsKey (fileBytes p)) headData

/-! ## Concrete environments used to evaluate the model -/

/-- A master playlist with the spec's bandwidth example {500, 1500, 1000},
each variant URL resolving to a one-segment media playlist. -/
def bandwidthExampleEnv : ResolveEnv :=
  { manifest := fun u =>
      if u = "http://h/master.m3u8" then
        ⟨[⟨⟨500⟩, "http://h/v500.m3u8"⟩, ⟨⟨1500⟩, "http://h/v1500.m3u8"⟩,
          ⟨⟨1000⟩, "http://h/v1000.m3u8"⟩], [], [], []⟩
      else ⟨[], [], [⟨"seg0.ts", "http://h/seg0.ts"⟩], []⟩,
    keyBytes := fun _ => [],
    hostOf := fun _ => "http://h" }

/-- A master playlist whose single variant declares bandwidth 0; the variant's
own URL and the empty URL lead to distinguishable media playlists. -/
def zeroBandwidthEnv : ResolveEnv :=
  { manifest := fun u =>
      if u = "top" then ⟨[⟨⟨0⟩, "http://a/v.m3u8"⟩], [], [], []⟩
      else if u = "http://a/v.m3u8" then ⟨[], [], [⟨"variant.ts", "http://a/variant.ts"⟩], []⟩
      else ⟨[], [], [⟨"fallback.ts", "http://e/fallback.ts"⟩], []⟩,
    keyBytes := fun _ => [],
    hostOf := fun _ => "" }

/-- A master playlist that declares both one nested variant and two
segment-map tags; the variant resolves to a plain media playlist. -/
def twoMapMasterEnv : ResolveEnv :=
  { manifest := fun u =>
      if u = "top" then ⟨[⟨⟨100⟩, "http://a/v.m3u8"⟩], [⟨"h1.mp4"⟩, ⟨"h2.mp4"⟩], [], []⟩
      else ⟨[], [], [⟨"s.ts", "http://a/s.ts"⟩], []⟩,
    keyBytes := fun _ => [],
    hostOf := fun _ => "http://a" }

/-- A variant-free media playlist that declares two segment-map tags. -/
def twoMapLeafEnv : ResolveEnv :=
  { manifest := fun _ => ⟨[], [⟨"h1.mp4"⟩, ⟨"h2.mp4"⟩], [⟨"s.ts", "http://a/s.ts"⟩], []⟩,
    keyBytes := fun _ => [],
    hostOf := fun _ => "http://a" }

/-! ## Helper lemmas on the variant-selection fold -/

/-- The bandwidth component of the selection fold is the running maximum. -/
theorem selectPlaylist_fst : ∀ (ps : List Playlist) (b : Int) (u : String),
    (selectPlaylist ps (b, u)).1 = ps.foldl (fun a p => max a (bwOf p)) b := by
  intro ps
  induction ps with
  | nil => intro b u; rfl
  | cons p ps ih =>
    intro b u
    show (selectPlaylist ps (if b < bwOf p then (bwOf p, p.absolute_uri) else (b, u))).1 =
      ps.foldl (fun a q => max a (bwOf q)) (max b (bwOf p))
    by_cases h : b < bwOf p
    · rw [if_pos h, ih, max_eq_right h.le]
    · rw [if_neg h, ih, max_eq_left (not_lt.mp h)]

/-- The running maximum never drops below its seed. -/
theorem le_foldl_max : ∀ (ps : List Playlist) (b : Int),
    b ≤ ps.foldl (fun a p => max a (bwOf p)) b := by
  intro ps
  induction ps with
  | nil => intro b; exact le_refl b
  | cons p ps ih => intro b; exact le_trans (le_max_left b (bwOf p)) (ih _)

/-- Every listed bandwidth is bounded by the running maximum. -/
theorem bw_le_foldl_max : ∀ (ps : List Playlist) (b : Int) (q : Playlist), q ∈ ps →
    bwOf q ≤ ps.foldl (fun a p => max a (bwOf p)) b := by
  intro ps
  induction ps with
  | nil => intro b q hq; cases hq
  | cons p ps ih =>
    intro b q hq
    cases hq with
    | head => exact le_trans (le_max_right b (bwOf p)) (le_foldl_max ps _)
    | tail _ hmem => exact ih _ q hmem

/-- When the seed dominates every element, the running maximum is the seed. -/
theorem foldl_max_of_le : ∀ (ps : List Playlist) (b : Int), (∀ q ∈ ps, bwOf q ≤ b) →
    ps.foldl (fun a p => max a (bwOf p)) b = b := by
  intro ps
  induction ps with
  | nil => intro b _; rfl
  | cons p ps ih =>
    intro b h
    show ps.foldl (fun a q => max a (bwOf q)) (max b (bwOf p)) = b
    rw [max_eq_left (h p (List.mem_cons_self p ps))]
    exact ih b fun q hq => h q (List.mem_cons_of_mem p hq)

/-- When the accumulator dominates every element, the fold never updates. -/
theorem selectPlaylist_of_le : ∀ (ps : List Playlist) (b : Int) (u : String),
    (∀ q ∈ ps, bwOf q ≤ b) → selectPlaylist ps (b, u) = (b, u) := by
  intro ps
  induction ps with
  | nil => intro b u _; rfl
  | cons p ps ih =>
    intro b u h
    show selectPlaylist ps (if b < bwOf p then (bwOf p, p.absolute_uri) else (b, u)) = (b, u)
    rw [if_neg (not_lt.mpr (h p (List.mem_cons_self p ps)))]
    exact ih b u fun q hq => h q (List.mem_cons_of_mem p hq)

/-- When some element exceeds the seed, the selection fold lands on the FIRST
element attaining the running maximum (`find?` returns the first match). -/
theorem selectPlaylist_find_max : ∀ (ps : List Playlist) (b : Int) (u : String),
    (∃ q ∈ ps, b < bwOf q) →
    ∃ p, ps.find? (fun q => bwOf q == ps.foldl (fun a x => max a (bwOf x)) b) = some p ∧
      selectPlaylist ps (b, u) = (ps.foldl (fun a x => max a (bwOf x)) b, p.absolute_uri) := by
  intro ps
  induction ps with
  | nil => intro b u h; obtain ⟨q, hq, _⟩ := h; cases hq
  | cons p ps ih =>
    intro b u hex
    have hfold : (p :: ps).foldl (fun a x => max a (bwOf x)) b =
        ps.foldl (fun a x => max a (bwOf x)) (max b (bwOf p)) := rfl
    by_cases h : b < bwOf p
    · by_cases hall : ∀ q ∈ ps, bwOf q ≤ bwOf p
      · have hM : (p :: ps).foldl (fun a x => max a (bwOf x)) b = bwOf p := by
          rw [hfold, max_eq_right h.le, foldl_max_of_le ps (bwOf p) hall]
        refine ⟨p, ?_, ?_⟩
        · rw [List.find?_cons_of_pos]
          rw [hM]
          exact beq_self_eq_true (bwOf p)
        · show selectPlaylist ps (if b < bwOf p then (bwOf p, p.absolute_uri) else (b, u)) =
            ((p :: ps).foldl (fun a x => max a (bwOf x)) b, p.absolute_uri)
          rw [if_pos h, selectPlaylist_of_le ps (bwOf p) p.absolute_uri hall, hM]
      · push_neg at hall
        obtain ⟨q0, hq0, hlt0⟩ := hall
        have hMfold : (p :: ps).foldl (fun a x => max a (bwOf x)) b =
            ps.foldl (fun a x => max a (bwOf x)) (bwOf p) := by
          rw [hfold, max_eq_right h.le]
        have hplt : bwOf p < (p :: ps).foldl (fun a x => max a (bwOf x)) b := by
          rw [hMfold]
          exact lt_of_lt_of_le hlt0 (bw_le_foldl_max ps (bwOf p) q0 hq0)
        obtain ⟨p', hfind, hsel⟩ := ih (bwOf p) p.absolute_uri ⟨q0, hq0, hlt0⟩
        refine ⟨p', ?_, ?_⟩
        · rw [List.find?_cons_of_neg]
          · rw [show (fun q => bwOf q == (p :: ps).foldl (fun a x => max a (bwOf x)) b) =
              (fun q => bwOf q == ps.foldl (fun a x => max a (bwOf x)) (bwOf p)) from by
                rw [hMfold]]
            exact hfind
          · simp only [beq_iff_eq]
            exact ne_of_lt hplt
        · show selectPlaylist ps (if b < bwOf p then (bwOf p, p.absolute_uri) else (b, u)) = _
          rw [if_pos h, hsel, hMfold]
    · obtain ⟨q0, hq0, hlt0⟩ := hex
      have hq0ps : q0 ∈ ps := by
        cases hq0 with
        | head => exact absurd hlt0 h
        | tail _ hmem => exact hmem
      have hMfold : (p :: ps).foldl (fun a x => max a (bwOf x)) b =
          ps.foldl (fun a x => max a (bwOf x)) b := by
        rw [hfold, max_eq_left (not_lt.mp h)]
      have hplt : bwOf p < (p :: ps).foldl (fun a x => max a (bwOf x)) b := by
        rw [hMfold]
        exact lt_of_le_of_lt (not_lt.mp h)
          (lt_of_lt_of_le hlt0 (bw_le_foldl_max ps b q0 hq0ps))
      obtain ⟨p', hfind, hsel⟩ := ih b u ⟨q0, hq0ps, hlt0⟩
      refine ⟨p', ?_, ?_⟩
      · rw [List.find?_cons_of_neg]
        · rw [show (fun q => bwOf q == (p :: ps).foldl (fun a x => max a (bwOf x)) b) =
            (fun q => bwOf q == ps.foldl (fun a x => max a (bwOf x)) b) from by rw [hMfold]]
          exact hfind
        · simp only [beq_iff_eq]
          exact ne_of_lt hplt
      · show selectPlaylist ps (if b < bwOf p then (bwOf p, p.absolute_uri) else (b, u)) = _
        rw [if_neg h, hsel, hMfold]

/-! ## Helper lemmas on the retry loop and the result-slot array -/

/-- When every pass succeeds with non-zero but mismatching counts, the retry
loop consumes its whole budget and fails, after exactly budget + 1 passes. -/
theorem startAux_mismatch_all (passes : Nat → Except String (Nat × Nat)) (merge mergeOk : Bool)
    (h : ∀ r, ∃ c1 c2, passes r = .ok (c1, c2) ∧ c1 ≠ 0 ∧ c2 ≠ 0 ∧ c2 ≠ c1) :
    ∀ b r, startAux passes merge mergeOk b r = (.failure, b + 1) := by
  intro b
  induction b with
  | zero =>
    intro r
    obtain ⟨c1, c2, hp, h1, h2, h3⟩ := h r
    simp [startAux, hp, h1, h2, h3]
  | succ b ih =>
    intro r
    obtain ⟨c1, c2, hp, h1, h2, h3⟩ := h r
    simp [startAux, hp, h1, h2, h3, ih]

/-- Index-wise filling preserves the length of the slot list. -/
theorem foldl_set_length (v : Nat → Option String) :
    ∀ (order : List Nat) (st : List (Option String)),
      (order.foldl (fun s j => s.set j (v j)) st).length = st.length := by
  intro order
  induction order with
  | nil => intro st; rfl
  | cons j rest ih => intro st; rw [List.foldl_cons, ih, List.length_set]

/-- After filling the slots listed in `order`, slot `i` holds `v i` exactly
when `i` was filled, and is untouched otherwise — each fill owns its index. -/
theorem foldl_set_getElem? (v : Nat → Option String) :
    ∀ (order : List Nat) (st : List (Option String)) (i : Nat), i < st.length →
      (order.foldl (fun s j => s.set j (v j)) st)[i]? =
        if i ∈ order then some (v i) else st[i]? := by
  intro order
  induction order with
  | nil => intro st i hi; simp
  | cons j rest ih =>
    intro st i hi
    have hlen : i < (st.set j (v j)).length := by
      rw [List.length_set]; exact hi
    rw [List.foldl_cons, ih (st.set j (v j)) i hlen]
    by_cases hm : i ∈ rest
    · simp [hm, List.mem_cons]
    · by_cases hij : i = j
      · subst hij
        simp [hm, List.getElem?_set_self hi]
      · simp [hm, hij, List.getElem?_set_ne (Ne.symm hij)]

/-- A complete pass in any completion order yields the slot list of all paths
in ascending index order. -/
theorem runFetches_perm (n : Nat) (pathOf : Nat → String) (order : List Nat)
    (hperm : order.Perm (List.range n)) :
    runFetches n pathOf order = (List.range n).map (fun i => some (pathOf i)) := by
  apply List.ext_getElem?
  intro i
  by_cases hi : i < n
  · have hmem : i ∈ order := hperm.mem_iff.mpr (List.mem_range.mpr hi)
    have hrepl : i < (List.replicate n (none : Option String)).length := by
      rw [List.length_replicate]; exact hi
    rw [runFetches, foldl_set_getElem? (fun j => some (pathOf j)) order _ i hrepl]
    rw [if_pos hmem, List.getElem?_map, List.getElem?_range hi]
    rfl
  · have h1 : (runFetches n pathOf order).length ≤ i := by
      rw [runFetches, foldl_set_length, List.length_replicate]
      exact Nat.le_of_not_lt hi
    have h2 : ((List.range n).map (fun i => some (pathOf i))).length ≤ i := by
      rw [List.length_map, List.length_range]
      exact Nat.le_of_not_lt hi
    rw [List.getElem?_eq_none h1, List.getElem?_eq_none h2]

/-- The Python truthiness filter is the identity on a list of present,
non-empty paths. -/
theorem pyFilter_map_some (pathOf : Nat → String) :
    ∀ l : List Nat, (∀ i ∈ l, (pathOf i).isEmpty = false) →
      pyFilter (l.map fun i => some (pathOf i)) = l.map pathOf := by
  intro l
  induction l with
  | nil => intro _; rfl
  | cons x xs ih =>
    intro h
    have hx := h x (List.mem_cons_self x xs)
    show pyFilter (some (pathOf x) :: xs.map fun i => some (pathOf i)) =
      pathOf x :: xs.map pathOf
    rw [pyFilter, List.filterMap_cons]
    simp only [hx, Bool.false_eq_true, if_false]
    rw [← ih (fun i hi => h i (List.mem_cons_of_mem x hi))]
    rfl

/-- The concatenation loop keeps the already-written head bytes as a prefix. -/
theorem mergeConcat_head (cipher : List Nat → List Nat → List Nat → List Nat)
    (tsKey : Option M3u8Key) (fileBytes : String → List Nat) :
    ∀ (paths : List String) (headData : List Nat),
      (mergeConcat cipher tsKey headData fileBytes paths).take headData.length = headData := by
  intro paths
  induction paths with
  | nil => intro headData; simp [mergeConcat]
  | cons p ps ih =>
    intro headData
    show (mergeConcat cipher tsKey (headData ++ mergeStageBytes cipher tsKey (fileBytes p))
        fileBytes ps).take headData.length = headData
    have hfull := ih (headData ++ mergeStageBytes cipher tsKey (fileBytes p))
    rw [List.length_append] at hfull
    have h2 := congrArg (fun l => l.take headData.length) hfull
    simp only at h2
    rw [List.take_take, min_eq_left (Nat.le_add_right _ _)] at h2
    rw [h2, List.take_left' rfl]

/-! ## Claim C1: decryption across the fetch and merge stages -/

/-- Claim C1, counterexample.  The claim says that with `is_decrypt` true a
segment is decrypted at fetch time and NOT decrypted again during merge.  But
`merge` (line 341) decrypts whenever `ts_key` is set, ignoring `is_decrypt`:
instantiating the cipher core with the injective map `d ↦ 0 :: d`, the bytes
reaching the output are the twice-decrypted `[0, 0, 5]`, not the once-decrypted
`[0, 5]`. -/
theorem merge_redecrypts_fetched_plaintext_cex :
    mergeStageBytes (fun d _ _ => 0 :: d) (some ⟨[1], none⟩)
      (fetchStageBytes (fun d _ _ => 0 :: d) (some ⟨[1], none⟩) true [5]) = [0, 0, 5] ∧
    decrypt_aes_256_cbc (fun d _ _ => 0 :: d) [5] [1] none = [0, 5] ∧
    ([0, 0, 5] : List Nat) ≠ [0, 5] :=
  ⟨rfl, rfl, by decide⟩

/-- Claim C1, amended.  With key material present, the merge stage always
applies the decryption primitive: when `is_decrypt` is false the segment bytes
are decrypted exactly once (at merge); when `is_decrypt` is true they are
decrypted at fetch AND again at merge, i.e. twice across the two stages; with
no key material neither stage decrypts. -/
theorem decrypt_counts_across_stages
    (cipher : List Nat → List Nat → List Nat → List Nat)
    (k : M3u8Key) (content : List Nat) :
    fetchStageBytes cipher (some k) false content = content ∧
    mergeStageBytes cipher (some k) (fetchStageBytes cipher (some k) false content) =
      decrypt_aes_256_cbc cipher content k.key k.iv ∧
    mergeStageBytes cipher (some k) (fetchStageBytes cipher (some k) true content) =
      decrypt_aes_256_cbc cipher (decrypt_aes_256_cbc cipher content k.key k.iv) k.key k.iv ∧
    (∀ d b, fetchStageBytes cipher none b d = d ∧ mergeStageBytes cipher none d = d) :=
  ⟨rfl, rfl, rfl, fun _ b => ⟨by cases b <;> rfl, rfl⟩⟩

/-! ## Claim C2: bounded whole-pipeline retry -/

/-- Claim C2.  When the final output does not yet exist and every pass ends
with non-zero but mismatching counts, `start` re-runs the whole pipeline once
per unit of retry budget and then returns failure: exactly `retry_max + 1`
passes run and the result is `False`, never an infinite loop; the counters
of `__init__` default to `retry_count = 0`, `retry_max_count = 50`. -/
theorem retry_budget_bounds_restarts (fs : FS) (del_hls merge : Bool)
    (passes : Nat → Except String (Nat × Nat)) (mergeOk : Bool) (retry_max : Nat)
    (hfs : fs.mp4Exists = false)
    (h : ∀ r, ∃ c1 c2, passes r = .ok (c1, c2) ∧ c1 ≠ 0 ∧ c2 ≠ 0 ∧ c2 ≠ c1) :
    startModel fs del_hls merge passes mergeOk retry_max = ⟨.failure, false, retry_max + 1⟩ ∧
    initCounters.retry_count = 0 ∧ initCounters.retry_max_count = 50 := by
  refine ⟨?_, rfl, rfl⟩
  simp [startModel, hfs, startAux_mismatch_all passes merge mergeOk h]

/-- Claim C2, witness: 2 of 10 segments short on every pass, default budget 50:
51 passes and failure. -/
theorem retry_budget_bounds_restarts_witness :
    startModel ⟨false, true⟩ false true (fun _ => .ok (10, 8)) true 50 =
      ⟨.failure, false, 51⟩ ∧
    initCounters.retry_count = 0 ∧ initCounters.retry_max_count = 50 :=
  retry_budget_bounds_restarts ⟨false, true⟩ false true (fun _ => .ok (10, 8)) true 50 rfl
    (fun _ => ⟨10, 8, rfl, by decide, by decide, by decide⟩)

/-! ## Claim C3: variant selection by maximal bandwidth -/

/-- Claim C3, counterexample.  The claim says resolution always selects the
variant with the largest declared bandwidth and recurses into its absolute
URI.  The fold starts at `bandwidth = 0`, `play_url = ""`, and updates only on
a strictly larger bandwidth, so a manifest whose single variant declares
bandwidth 0 selects the empty URL: resolution recurses into `""` (here a
manifest with segment `fallback.ts`) instead of the variant's own URI (whose
manifest holds `variant.ts`). -/
theorem zero_bandwidth_variant_not_selected_cex :
    selectedPlaylist [⟨⟨0⟩, "http://a/v.m3u8"⟩] = (0, "") ∧
    ("" : String) ≠ "http://a/v.m3u8" ∧
    getTsList zeroBandwidthEnv none 2 "top" = .ok ⟨[⟨"http://e/fallback.ts", 0⟩], none, none⟩ ∧
    getTsList zeroBandwidthEnv none 1 "http://a/v.m3u8" =
      .ok ⟨[⟨"http://a/variant.ts", 0⟩], none, none⟩ :=
  ⟨by decide, by decide, by decide, by decide⟩

/-- Claim C3, amended.  Provided at least one variant declares a strictly
positive bandwidth, resolution selects the maximum declared bandwidth, the
selected play url is the absolute URI of the FIRST variant attaining that
maximum (`find?` returns the first match, so ties keep the first seen), and
`get_ts_list` recurses exactly into that URI; when the manifest it lands on
has zero nested variants the recursion stops (the result no longer depends on
the remaining recursion fuel). -/
theorem variant_selection_first_max (env : ResolveEnv) (custom : Option M3u8Key)
    (fuel : Nat) (url : String)
    (h : ∃ p ∈ (env.manifest url).playlists, 0 < bwOf p) :
    (selectedPlaylist (env.manifest url).playlists).1 =
      maxBandwidth (env.manifest url).playlists ∧
    ((env.manifest url).playlists.find?
        (fun q => bwOf q == maxBandwidth (env.manifest url).playlists)).map
        Playlist.absolute_uri =
      some (selectedPlaylist (env.manifest url).playlists).2 ∧
    getTsList env custom (fuel + 1) url =
      getTsList env custom fuel (selectedPlaylist (env.manifest url).playlists).2 ∧
    ((env.manifest (selectedPlaylist (env.manifest url).playlists).2).playlists = [] →
      getTsList env custom (fuel + 1) (selectedPlaylist (env.manifest url).playlists).2 =
        getTsList env custom 1 (selectedPlaylist (env.manifest url).playlists).2) := by
  obtain ⟨p0, hp0, hpos⟩ := h
  obtain ⟨p, hfind, hsel⟩ :=
    selectPlaylist_find_max (env.manifest url).playlists 0 "" ⟨p0, hp0, hpos⟩
  have hlen : 0 < (env.manifest url).playlists.length :=
    List.length_pos.mpr (List.ne_nil_of_mem hp0)
  refine ⟨?_, ?_, ?_, ?_⟩
  · rw [selectedPlaylist, hsel]
    rfl
  · rw [show maxBandwidth (env.manifest url).playlists =
      (env.manifest url).playlists.foldl (fun a x => max a (bwOf x)) 0 from rfl]
    rw [hfind, selectedPlaylist, hsel]
    rfl
  · show getTsList env custom (fuel + 1) url = _
    rw [getTsList]
    rw [if_pos hlen]
  · intro hleaf
    rw [getTsList, getTsList]
    rw [hleaf]
    simp

/-- Claim C3, witness: the spec's bandwidth example {500, 1500, 1000}; the
1500 variant is selected and recursed into, and recursion stops there. -/
theorem variant_selection_first_max_witness :
    (selectedPlaylist (bandwidthExampleEnv.manifest "http://h/master.m3u8").playlists).1 =
      maxBandwidth (bandwidthExampleEnv.manifest "http://h/master.m3u8").playlists ∧
    ((bandwidthExampleEnv.manifest "http://h/master.m3u8").playlists.find?
        (fun q => bwOf q ==
          maxBandwidth (bandwidthExampleEnv.manifest "http://h/master.m3u8").playlists)).map
        Playlist.absolute_uri =
      some (selectedPlaylist (bandwidthExampleEnv.manifest "http://h/master.m3u8").playlists).2 ∧
    getTsList bandwidthExampleEnv none 2 "http://h/master.m3u8" =
      getTsList bandwidthExampleEnv none 1
        (selectedPlaylist (bandwidthExampleEnv.manifest "http://h/master.m3u8").playlists).2 ∧
    ((bandwidthExampleEnv.manifest
        (selectedPlaylist
          (bandwidthExampleEnv.manifest "http://h/master.m3u8").playlists).2).playlists = [] →
      getTsList bandwidthExampleEnv none 2
          (selectedPlaylist (bandwidthExampleEnv.manifest "http://h/master.m3u8").playlists).2 =
        getTsList bandwidthExampleEnv none 1
          (selectedPlaylist
            (bandwidthExampleEnv.manifest "http://h/master.m3u8").playlists).2) :=
  variant_selection_first_max bandwidthExampleEnv none 1 "http://h/master.m3u8"
    ⟨⟨⟨500⟩, "http://h/v500.m3u8"⟩, by decide, by decide⟩

/-! ## Claim C4: multiple segment-map entries -/

/-- Claim C4, counterexample.  The claim says every manifest declaring two or
more segment-map tags makes resolution raise a fatal error.  But the nested-
variant branch runs first and returns before the segment-map check: a manifest
with one variant playlist AND two segment-map tags resolves successfully
through the variant, raising nothing. -/
theorem two_segment_maps_with_variants_cex :
    (twoMapMasterEnv.manifest "top").segment_map.length = 2 ∧
    getTsList twoMapMasterEnv none 2 "top" = .ok ⟨[⟨"http://a/s.ts", 0⟩], none, none⟩ :=
  ⟨by decide, by decide⟩

/-- Claim C4, amended.  For every manifest with zero nested variants that
declares two or more segment-map tags, resolution fails with the unsupported-
input `ValueError` before any segment entries are produced, and an error
raised by a pass propagates out of the orchestrator uncaught: the retry loop
converts it into `raised` after that single pass, consuming no retries. -/
theorem multiple_segment_maps_fatal (env : ResolveEnv) (custom : Option M3u8Key)
    (fuel : Nat) (url : String)
    (passes : Nat → Except String (Nat × Nat)) (merge mergeOk : Bool) (b r : Nat)
    (hleaf : (env.manifest url).playlists = [])
    (hmaps : 1 < (env.manifest url).segment_map.length)
    (hp : passes r = .error "more than one segment_map entry is not supported") :
    getTsList env custom (fuel + 1) url =
      .error "more than one segment_map entry is not supported" ∧
    startAux passes merge mergeOk b r =
      (.raised "more than one segment_map entry is not supported", 1) := by
  constructor
  · rw [getTsList]
    rw [hleaf]
    simp [hmaps]
  · cases b <;> simp [startAux, hp]

/-- Claim C4, witness: a variant-free manifest with two segment-map tags fails
at once, and the error passes through the retry loop untouched. -/
theorem multiple_segment_maps_fatal_witness :
    getTsList twoMapLeafEnv none 1 "http://a/index.m3u8" =
      .error "more than one segment_map entry is not supported" ∧
    startAux (fun _ => .error "more than one segment_map entry is not supported") true true 50 0 =
      (.raised "more than one segment_map entry is not supported", 1) :=
  multiple_segment_maps_fatal twoMapLeafEnv none 0 "http://a/index.m3u8"
    (fun _ => .error "more than one segment_map entry is not supported") true true 50 0
    (by decide) (by decide) rfl

/-! ## Claim C5: empty versus absent segment bodies -/

/-- Claim C5, counterexample.  The claim says a fetch whose body is empty OR
absent leaves the slot empty.  `_download_ts` only tests `ts_content is None`:
a present-but-empty body (zero bytes) is written to disk and its path recorded
in the slot. -/
theorem empty_body_records_path_cex :
    (download_ts (fun d _ _ => d) none false 0 false (some [])).slot = some "0.ts" ∧
    (download_ts (fun d _ _ => d) none false 0 false (some [])).written = some [] ∧
    some "0.ts" ≠ (none : Option String) :=
  ⟨by decide, by decide, by decide⟩

/-- Claim C5, amended.  For every fetch whose response body is ABSENT (Python
`None`), the fetcher reports no result: no file is written and the slot stays
empty; an empty slot contributes nothing to the verified count (the truthiness
filter of line 167 drops it), which the count check then sees as a shortfall.
A present-but-empty body, by contrast, is treated as a normal download. -/
theorem absent_body_leaves_slot_empty
    (cipher : List Nat → List Nat → List Nat → List Nat)
    (tsKey : Option M3u8Key) (is_decrypt : Bool) (index : Nat) :
    download_ts cipher tsKey is_decrypt index false none = ⟨none, none⟩ ∧
    ∀ l1 l2 : List (Option String),
      (pyFilter (l1 ++ none :: l2)).length = (pyFilter (l1 ++ l2)).length := by
  refine ⟨rfl, fun l1 l2 => ?_⟩
  simp [pyFilter, List.filterMap_append, List.filterMap_cons]

/-! ## Claim C6: key bytes as fallback IV -/

/-- Claim C6.  When the manifest declares a key without any IV and the caller
supplies none either (no custom key, or a custom key with a `None` IV), the
resolved key material carries `iv = None`, and both decryption sites then call
the cipher with the key bytes themselves as the IV. -/
theorem missing_iv_defaults_to_key (fetchKey : String → List Nat) (uri : String)
    (ck : List Nat) (cipher : List Nat → List Nat → List Nat → List Nat)
    (data : List Nat) :
    resolveTsKey fetchKey [some ⟨none, uri⟩] none = some (.ok ⟨fetchKey uri, none⟩) ∧
    resolveTsKey fetchKey [some ⟨none, uri⟩] (some ⟨ck, none⟩) = some (.ok ⟨ck, none⟩) ∧
    mergeStageBytes cipher (some ⟨fetchKey uri, none⟩) data =
      cipher data (fetchKey uri) (fetchKey uri) ∧
    fetchStageBytes cipher (some ⟨ck, none⟩) true data = cipher data ck ck :=
  ⟨rfl, rfl, rfl, rfl⟩

/-! ## Claim C7: textual IV validation -/

/-- Claim C7, counterexample.  The claim says every text IV decoding to a byte
string of length ≠ 16 is rejected.  The guard is `if iv and len(iv) != 16`:
the empty string decodes to empty bytes (length 0 ≠ 16), which are FALSY, so
construction succeeds with `iv = b""` instead of raising. -/
theorem empty_text_iv_accepted_cex :
    decodeIvStr "" = some [] ∧ ([] : List Nat).length ≠ 16 ∧
    M3u8Key.init [1] (.str "") = .ok ⟨[1], some []⟩ :=
  ⟨by decide, by decide, by decide⟩

/-- Claim C7, amended.  A text IV that hex-decodes to a NON-EMPTY byte string
whose length is not 16 makes key-material construction fail with the
descriptive length error (an IV decoding to empty bytes slips through the
truthiness guard). -/
theorem text_iv_wrong_length_rejected (key : List Nat) (s : String) (b : List Nat)
    (hdec : decodeIvStr s = some b) (hne : b ≠ []) (hlen : b.length ≠ 16) :
    M3u8Key.init key (.str s) = .error "iv length is not 16" := by
  cases b with
  | nil => exact absurd rfl hne
  | cons x xs =>
    have hl : xs.length ≠ 15 := by simpa using hlen
    simp [M3u8Key.init, hdec, ivTruthy, ivLength, hl]

/-- Claim C7, witness: the 2-byte hex IV `"abcd"` is rejected. -/
theorem text_iv_wrong_length_rejected_witness :
    M3u8Key.init [1] (.str "abcd") = .error "iv length is not 16" :=
  text_iv_wrong_length_rejected [1] "abcd" [171, 205] (by decide) (by decide) (by decide)

/-! ## Claim C8: merge concatenation order -/

/-- Claim C8.  For a complete pass over `n` segments whose fetches finished in
ANY order (any permutation of the indices), the filtered path list the merge
loop walks is exactly the per-index paths in ascending index order — each
fetch records its path only at its own index — so the concatenated bytes equal
those of the ascending-index walk, and the optional initialization-segment
bytes stay at the very front. -/
theorem merge_order_ascending_index (n : Nat) (pathOf : Nat → String) (order : List Nat)
    (cipher : List Nat → List Nat → List Nat → List Nat) (tsKey : Option M3u8Key)
    (headData : List Nat) (fileBytes : String → List Nat)
    (hperm : order.Perm (List.range n))
    (hne : ∀ i, i < n → (pathOf i).isEmpty = false) :
    pyFilter (runFetches n pathOf order) = (List.range n).map pathOf ∧
    mergeConcat cipher tsKey headData fileBytes (pyFilter (runFetches n pathOf order)) =
      mergeConcat cipher tsKey headData fileBytes ((List.range n).map pathOf) ∧
    (mergeConcat cipher tsKey headData fileBytes
        (pyFilter (runFetches n pathOf order))).take headData.length = headData := by
  have h1 : pyFilter (runFetches n pathOf order) = (List.range n).map pathOf := by
    rw [runFetches_perm n pathOf order hperm]
    exact pyFilter_map_some pathOf (List.range n)
      (fun i hi => hne i (List.mem_range.mp hi))
  exact ⟨h1, by rw [h1], mergeConcat_head cipher tsKey fileBytes _ headData⟩

/-- Claim C8, witness: three segments completing in order 2, 0, 1 still merge
as 0, 1, 2 after the head bytes. -/
theorem merge_order_ascending_index_witness :
    pyFilter (runFetches 3 (fun i => toString i ++ ".ts") [2, 0, 1]) =
      (List.range 3).map (fun i => toString i ++ ".ts") ∧
    mergeConcat (fun d _ _ => d) none [9] (fun _ => [1])
        (pyFilter (runFetches 3 (fun i => toString i ++ ".ts") [2, 0, 1])) =
      mergeConcat (fun d _ _ => d) none [9] (fun _ => [1])
        ((List.range 3).map (fun i => toString i ++ ".ts")) ∧
    (mergeConcat (fun d _ _ => d) none [9] (fun _ => [1])
        (pyFilter (runFetches 3 (fun i => toString i ++ ".ts") [2, 0, 1]))).take
        ([9] : List Nat).length = [9] :=
  merge_order_ascending_index 3 (fun i => toString i ++ ".ts") [2, 0, 1]
    (fun d _ _ => d) none [9] (fun _ => [1])
    (List.isPerm_iff.mp (by decide)) (by decide)

/-! ## Claim C9: short-circuit when the output file exists -/

/-- Claim C9.  When the final `.mp4` already exists, `start` returns success
immediately: zero passes run (no manifest fetch, no segment work), and the hls
working directory is removed exactly when cleanup was requested and the
directory exists. -/
theorem existing_mp4_short_circuit (fs : FS) (del_hls merge : Bool)
    (passes : Nat → Except String (Nat × Nat)) (mergeOk : Bool) (retry_max : Nat)
    (h : fs.mp4Exists = true) :
    startModel fs del_hls merge passes mergeOk retry_max =
      ⟨.success, del_hls && fs.hlsDirExists, 0⟩ := by
  simp [startModel, h]

/-- Claim C9, witness: output present, cleanup requested, a network that would
fail if consulted — success with the directory removed and zero passes. -/
theorem existing_mp4_short_circuit_witness :
    startModel ⟨true, true⟩ true false (fun _ => .error "network touched") false 50 =
      ⟨.success, true, 0⟩ :=
  existing_mp4_short_circuit ⟨true, true⟩ true false (fun _ => .error "network touched")
    false 50 rfl

/-! ## Claim C10: the http-substring absoluteness test -/

/-- Claim C10.  The entry built for segment `i` keeps the raw URI verbatim
exactly when the string `http` occurs anywhere in it, and uses the resolved
absolute URI otherwise; the index recorded is the enumeration index. -/
theorem segment_uri_http_substring (segs : List Segment) (i : Nat) (s : Segment)
    (hs : segs[i]? = some s) :
    (httpIn s.uri = true → (buildTsList segs)[i]? = some ⟨s.uri, i⟩) ∧
    (httpIn s.uri = false → (buildTsList segs)[i]? = some ⟨s.absolute_uri, i⟩) := by
  have h1 : (buildTsList segs)[i]? = some ⟨resolveSegUri s, i⟩ := by
    rw [buildTsList, List.getElem?_map, List.enum_eq_enumFrom, List.getElem?_enumFrom, hs]
    simp
  constructor
  · intro h
    rw [h1, resolveSegUri, if_pos h]
  · intro h
    rw [h1]
    rw [show resolveSegUri s = s.absolute_uri from by rw [resolveSegUri, if_neg]; simp [h]]

/-- Claim C10, witness: a relative URI merely containing `http` as a substring
is used unresolved, not replaced by its absolute form. -/
theorem segment_uri_http_substring_witness :
    httpIn "a/http_seg.ts" = true ∧
    (buildTsList [⟨"a/http_seg.ts", "https://h/a/http_seg.ts"⟩])[0]? =
      some ⟨"a/http_seg.ts", 0⟩ ∧
    "a/http_seg.ts" ≠ "https://h/a/http_seg.ts" :=
  ⟨by decide,
   (segment_uri_http_substring [⟨"a/http_seg.ts", "https://h/a/http_seg.ts"⟩] 0
      ⟨"a/http_seg.ts", "https://h/a/http_seg.ts"⟩ (by decide)).1 (by decide),
   by decide⟩

end HsM3u8
